import Mathlib

/-!
Shallow embedding of `src/populate_question_bank.py` (survey question-bank
loader).  Pure Python helpers (`classify_question_type`, `infer_topic`,
`parse_response_options`) become Lean functions on `String`; the row loop of
`main`, which threads the global `option_id_counter` and inserts question and
response-option records into SQLite, becomes explicit state passing
(`loadRow`, `processRows`, `load`) returning the records that would be
committed.  A missing required CSV field aborts the whole load before the
single final `conn.commit()`, so an aborted load commits no records; this is
modelled by `Except.error`.
-/

namespace QuestionBank

/-- Whitespace characters stripped by Python `str.strip()` (ASCII subset). -/
def isSpaceChar (c : Char) : Bool :=
  c = ' ' || c = '\t' || c = '\n' || c = '\r' || c = '\x0b' || c = '\x0c'

/-- Strip leading and trailing whitespace from a character list,
modelling Python `str.strip()`. -/
def trimChars (l : List Char) : List Char :=
  (((l.dropWhile isSpaceChar).reverse.dropWhile isSpaceChar)).reverse

/-- Model of Python `str.strip()` on strings. -/
def stripStr (s : String) : String := String.mk (trimChars s.data)

/-- Substring containment on character lists: `pat` occurs contiguously in
the second argument.  Models Python `pat in hay` for strings. -/
def containsSub (pat : List Char) : List Char → Bool
  | [] => pat.isEmpty
  | c :: rest => pat.isPrefixOf (c :: rest) || containsSub pat rest

/-- Model of Python `pat in hay` (substring containment) on strings. -/
def strContains (hay pat : String) : Bool := containsSub pat.data hay.data

/-- Model of Python `str.lower()` (ASCII letters; identical on the
keyword alphabet used by the classifiers). -/
def toLowerStr (s : String) : String := String.mk (s.data.map Char.toLower)

/-- Likert cue phrases from `classify_question_type` (source lines 43-49). -/
def likert_patterns : List String :=
  ["support or oppose", "approve or disapprove", "favorable or unfavorable",
   "agree or disagree", "priority"]

/-- Embedding of `classify_question_type(question_text, response_options)`
(source lines 16-56): first-match-wins cascade returning the numeric
question-type code. -/
def classify_question_type (question_text response_options : String) : Nat :=
  let text_lower := toLowerStr question_text
  if response_options = "[Open-ended response]" then 4
  else if strContains response_options "[Numeric scale" then 5
  else if strContains text_lower "rank" && strContains text_lower "order" then 6
  else if strContains text_lower "message a" && strContains text_lower "message b" then 7
  else if strContains text_lower "select all" || strContains text_lower "check all" then 3
  else if likert_patterns.any (fun p => strContains text_lower p) then 1
  else 2

/-- Demographics keywords from `infer_topic` (source line 66). -/
def demographics_keywords : List String :=
  ["gender", "education", "race", "ethnicity", "employment", "relationship"]

/-- Vote-choice keywords from `infer_topic` (source line 70). -/
def vote_keywords : List String :=
  ["vote", "voting", "election", "candidate", "democrat", "republican"]

/-- Housing keywords from `infer_topic` (source line 74). -/
def housing_keywords : List String :=
  ["housing", "home", "rent", "zoning", "development", "neighborhood"]

/-- Embedding of `infer_topic(question_text)` (source lines 59-78):
keyword cascade returning the numeric topic code, with Policy (3) as the
default. -/
def infer_topic (question_text : String) : Nat :=
  let text_lower := toLowerStr question_text
  if demographics_keywords.any (fun w => strContains text_lower w) then 1
  else if vote_keywords.any (fun w => strContains text_lower w) then 7
  else if housing_keywords.any (fun w => strContains text_lower w) then 4
  else 3

/-- Split a character list at every occurrence of `sep`, keeping empty
segments; models Python `str.split(sep)` for a one-character separator.
The result is always nonempty: splitting the empty list yields `[[]]`,
exactly as `"".split("|") == [""]` in Python. -/
def splitOnChar (sep : Char) : List Char → List (List Char)
  | [] => [[]]
  | c :: rest =>
    if c = sep then [] :: splitOnChar sep rest
    else
      match splitOnChar sep rest with
      | [] => [[c]]
      | s :: ss => (c :: s) :: ss

/-- Embedding of `parse_response_options(options_str)` (source lines 81-90):
the two sentinel strings yield no options; otherwise split on the pipe and
strip each segment, keeping order and empty segments. -/
def parse_response_options (options_str : String) : List String :=
  if options_str = "[Open-ended response]" ∨ options_str = "[Numeric scale 0-100]" then []
  else (splitOnChar '|' options_str.data).map (fun seg => String.mk (trimChars seg))

/-- Numeric value of a list of decimal digit characters. -/
def digitsVal (l : List Char) : Nat := l.foldl (fun a c => a * 10 + (c.toNat - 48)) 0

/-- Gregorian leap-year test, as in Python `datetime`. -/
def isLeapYear (y : Nat) : Bool := y % 4 = 0 && (y % 100 ≠ 0 || y % 400 = 0)

/-- Number of days in a month, as validated by `datetime`. -/
def daysInMonth (y m : Nat) : Nat :=
  if m = 2 then (if isLeapYear y then 29 else 28)
  else if m = 4 ∨ m = 6 ∨ m = 9 ∨ m = 11 then 30
  else 31

/-- Embedding of `datetime.strptime(s, "%Y-%m-%d")` (source line 130): a
strict parse that accepts a four-digit year, a one- or two-digit month and
day, requires the whole string to be consumed, and validates the calendar
date; any failure is `none` (the Python `except` path, lines 131-132). -/
def parseYMD (s : String) : Option (Nat × Nat × Nat) :=
  match splitOnChar '-' s.data with
  | [ys, ms, ds] =>
    if ys.length = 4 ∧ (ms.length = 1 ∨ ms.length = 2) ∧ (ds.length = 1 ∨ ds.length = 2)
        ∧ ys.all Char.isDigit ∧ ms.all Char.isDigit ∧ ds.all Char.isDigit then
      let y := digitsVal ys
      let m := digitsVal ms
      let d := digitsVal ds
      if 1 ≤ y ∧ 1 ≤ m ∧ m ≤ 12 ∧ 1 ≤ d ∧ d ≤ daysInMonth y m then some (y, m, d)
      else none
    else none
  | _ => none

/-- The date computation of `main` (source lines 129-132):
`row.get("field_date", "")` followed by
`datetime.strptime(field_date, "%Y-%m-%d") if field_date else None` under a
bare `except` that yields `None`. -/
def dateOf (fd : Option String) : Option (Nat × Nat × Nat) :=
  if fd.getD "" = "" then none else parseYMD (fd.getD "")

/-- One CSV row as produced by `csv.DictReader`; a `none` field models a
missing required column (Python raises on access, aborting the load). -/
structure RawRow where
  question_id : Option String
  question_text : Option String
  response_options : Option String
  field_date : Option String
deriving DecidableEq

/-- A row of the `questions` table as inserted by `main`
(source lines 135-147). -/
structure Question where
  question_id : String
  question_text : String
  question_type_id : Nat
  topic_id : Nat
  created_date : Option (Nat × Nat × Nat)
  last_used_date : Option (Nat × Nat × Nat)
  times_used : Nat
  is_active : Bool
  version : Nat
deriving DecidableEq

/-- A row of the `response_options` table as inserted by `main`
(source lines 156-166). -/
structure ResponseOption where
  option_id : Nat
  question_id : String
  option_text : String
  option_value : String
  display_order : Nat
deriving DecidableEq

/-- The option-insertion loop of `main` (source lines 152-168):
`enumerate(options, 1)` supplies `display_order` (here `disp`, starting at 1)
and the shared counter supplies `option_id`, incremented once per record;
`option_value = str(display_order)`. -/
def mkOptionRecords (qid : String) : Nat → Nat → List String → List ResponseOption
  | _, _, [] => []
  | counter, disp, t :: rest =>
    ⟨counter, qid, t, toString disp, disp⟩ :: mkOptionRecords qid (counter + 1) (disp + 1) rest

/-- Processing of one CSV row inside the loop of `main` (source lines
118-168): reads the three required fields (aborting when one is missing),
classifies type and topic, parses the field date with the null-on-failure
path, and builds the question record plus its option records, returning the
advanced option-id counter. -/
def loadRow (counter : Nat) (row : RawRow) : Except String (Question × List ResponseOption × Nat) :=
  match row.question_id, row.question_text, row.response_options with
  | some qid, some qtext, some ropts =>
    let qtype := classify_question_type qtext ropts
    let topic := infer_topic qtext
    let field_date_obj := dateOf row.field_date
    let options := parse_response_options ropts
    Except.ok (⟨qid, qtext, qtype, topic, field_date_obj, field_date_obj, 0, true, 1⟩,
      mkOptionRecords qid counter 1 options, counter + options.length)
  | _, _, _ => Except.error "missing required field"

/-- The row loop of `main` over the whole input, threading the option-id
counter (seeded at 1000 by the caller, source line 116); an error in any row
aborts the remainder. -/
def processRows (counter : Nat) : List RawRow → Except String (List (Question × List ResponseOption))
  | [] => Except.ok []
  | row :: rest =>
    match loadRow counter row with
    | Except.error e => Except.error e
    | Except.ok (q, ros, counter2) =>
      match processRows counter2 rest with
      | Except.error e => Except.error e
      | Except.ok out => Except.ok ((q, ros) :: out)

/-- The whole load of `main`: all rows processed with the counter seeded at
1000, then committed at once (source line 173).  An error means the final
commit is never reached, so no question or option records are persisted. -/
def load (rows : List RawRow) : Except String (List Question × List ResponseOption) :=
  match processRows 1000 rows with
  | Except.error e => Except.error e
  | Except.ok out => Except.ok (out.map Prod.fst, (out.map Prod.snd).flatten)

/-- A row carries all three required fields (`question_id`, `question_text`,
`response_options`). -/
def wellFormed (r : RawRow) : Bool :=
  r.question_id.isSome && r.question_text.isSome && r.response_options.isSome

/-- The parsed options of a row (its `k_i` witnesses). -/
def optionsOf (r : RawRow) : List String :=
  parse_response_options (r.response_options.getD "")

/-- `k_i`: the number of options row `r` parses to. -/
def kOf (r : RawRow) : Nat := (optionsOf r).length

/-- Total number of option records a row list should produce: `sum(k_i)`. -/
def totalOptions (rows : List RawRow) : Nat := (rows.map kOf).sum

/-- Model of `" | ".join(segments)`, used to state the parse round-trip. -/
def joinOptions : List String → String
  | [] => ""
  | [s] => s
  | s :: rest => s ++ " | " ++ joinOptions rest

/-! Basic facts about `splitOnChar`. -/

lemma splitOnChar_ne_nil (sep : Char) (l : List Char) : splitOnChar sep l ≠ [] := by
  induction l with
  | nil => simp [splitOnChar]
  | cons c rest ih =>
    by_cases h : c = sep
    · simp [splitOnChar, h]
    · rcases hs : splitOnChar sep rest with _ | ⟨s, ss⟩
      · exact absurd hs ih
      · simp [splitOnChar, if_neg h, hs]

lemma length_splitOnChar (sep : Char) (l : List Char) :
    (splitOnChar sep l).length = l.count sep + 1 := by
  induction l with
  | nil => simp [splitOnChar]
  | cons c rest ih =>
    by_cases h : c = sep
    · subst h
      simp [splitOnChar, List.count_cons, ih]
    · rcases hs : splitOnChar sep rest with _ | ⟨s, ss⟩
      · exact absurd hs (splitOnChar_ne_nil sep rest)
      · rw [hs] at ih
        simp only [splitOnChar, if_neg h, hs, List.length_cons, List.count_cons] at *
        simp [beq_iff_eq, h]
        omega

lemma not_mem_of_mem_splitOnChar (sep : Char) (l : List Char) :
    ∀ s ∈ splitOnChar sep l, sep ∉ s := by
  induction l with
  | nil =>
    intro s hs
    simp [splitOnChar] at hs
    simp [hs]
  | cons c rest ih =>
    intro s hs
    by_cases h : c = sep
    · simp only [splitOnChar, if_pos h, List.mem_cons] at hs
      rcases hs with rfl | hs
      · simp
      · exact ih s hs
    · rcases hmatch : splitOnChar sep rest with _ | ⟨m, ms⟩
      · exact absurd hmatch (splitOnChar_ne_nil sep rest)
      · simp only [splitOnChar, if_neg h, hmatch, List.mem_cons] at hs
        rcases hs with rfl | hs
        · intro hmem
          rcases List.mem_cons.mp hmem with rfl | hmem
          · exact h rfl
          · exact ih m (hmatch ▸ List.mem_cons_self m ms) hmem
        · exact ih s (hmatch ▸ List.mem_cons_of_mem m hs)

lemma splitOnChar_of_not_mem {sep : Char} {l : List Char} (h : sep ∉ l) :
    splitOnChar sep l = [l] := by
  induction l with
  | nil => rfl
  | cons c rest ih =>
    have hc : ¬ c = sep := fun he => h (he ▸ List.mem_cons_self c rest)
    have hr : sep ∉ rest := fun hm => h (List.mem_cons_of_mem c hm)
    simp [splitOnChar, if_neg hc, ih hr]

lemma splitOnChar_append {sep : Char} {a l : List Char} (ha : sep ∉ a) {h : List Char}
    {t : List (List Char)} (hl : splitOnChar sep l = h :: t) :
    splitOnChar sep (a ++ l) = (a ++ h) :: t := by
  induction a with
  | nil => simpa using hl
  | cons c a' ih =>
    have hc : ¬ c = sep := fun he => ha (he ▸ List.mem_cons_self c a')
    have ha' : sep ∉ a' := fun hm => ha (List.mem_cons_of_mem c hm)
    simp [splitOnChar, if_neg hc, ih ha']

/-! Basic facts about `dropWhile` and `trimChars`. -/

lemma dropWhile_idem (p : α → Bool) (l : List α) :
    (l.dropWhile p).dropWhile p = l.dropWhile p := by
  induction l with
  | nil => rfl
  | cons c rest ih =>
    by_cases h : p c
    · simp [List.dropWhile_cons, h, ih]
    · simp [List.dropWhile_cons, h]

lemma head_dropWhile_not {p : α → Bool} {l : List α} {c : α} {t : List α}
    (h : l.dropWhile p = c :: t) : p c = false := by
  induction l with
  | nil => simp at h
  | cons a rest ih =>
    by_cases hp : p a
    · rw [List.dropWhile_cons_of_pos hp] at h
      exact ih h
    · rw [List.dropWhile_cons_of_neg hp] at h
      cases h
      simpa using hp

lemma trimChars_cons_space {c : Char} (hc : isSpaceChar c = true) (l : List Char) :
    trimChars (c :: l) = trimChars l := by
  simp [trimChars, List.dropWhile_cons, hc]

lemma trimChars_append_space {c : Char} (hc : isSpaceChar c = true) (l : List Char) :
    trimChars (l ++ [c]) = trimChars l := by
  unfold trimChars
  rw [List.dropWhile_append]
  by_cases h : (l.dropWhile isSpaceChar).isEmpty
  · rw [List.isEmpty_iff] at h
    simp [h, List.dropWhile_cons, hc]
  · rw [if_neg h, List.reverse_append]
    simp [List.dropWhile_cons, hc]

lemma trimChars_idem (l : List Char) : trimChars (trimChars l) = trimChars l := by
  unfold trimChars
  rcases hA : l.dropWhile isSpaceChar with _ | ⟨c, t⟩
  · simp
  · have hc : isSpaceChar c = false := head_dropWhile_not hA
    rw [List.reverse_cons, List.dropWhile_append]
    by_cases ht : (t.reverse.dropWhile isSpaceChar).isEmpty
    · simp [ht, List.dropWhile_cons, hc]
    · simp only [if_neg ht, List.reverse_append, List.reverse_cons, List.reverse_nil,
        List.nil_append, List.singleton_append]
      rw [List.dropWhile_cons_of_neg (by simp [hc]), List.reverse_cons, List.reverse_reverse,
        List.dropWhile_append]
      simp [dropWhile_idem, ht]

lemma trimChars_subset (l : List Char) : trimChars l ⊆ l := by
  intro x hx
  unfold trimChars at hx
  rw [List.mem_reverse] at hx
  have h1 := (List.dropWhile_sublist (l := (l.dropWhile isSpaceChar).reverse)
    (p := isSpaceChar)).subset hx
  rw [List.mem_reverse] at h1
  exact (List.dropWhile_sublist (l := l) (p := isSpaceChar)).subset h1

lemma parse_response_options_of_ne {raw : String}
    (h1 : raw ≠ "[Open-ended response]") (h2 : raw ≠ "[Numeric scale 0-100]") :
    parse_response_options raw =
      (splitOnChar '|' raw.data).map (fun seg => String.mk (trimChars seg)) := by
  unfold parse_response_options
  rw [if_neg]
  rintro (h | h)
  · exact h1 h
  · exact h2 h

/-! Facts about the option-record builder. -/

lemma mkOptionRecords_length (qid : String) (c d : Nat) (opts : List String) :
    (mkOptionRecords qid c d opts).length = opts.length := by
  induction opts generalizing c d with
  | nil => rfl
  | cons t rest ih => simp [mkOptionRecords, ih]

lemma mkOptionRecords_ids (qid : String) (c d : Nat) (opts : List String) :
    (mkOptionRecords qid c d opts).map (fun ro => ro.option_id) = List.range' c opts.length := by
  induction opts generalizing c d with
  | nil => rfl
  | cons t rest ih => simp [mkOptionRecords, List.range'_succ, ih]

lemma mkOptionRecords_display (qid : String) (c d : Nat) (opts : List String) :
    (mkOptionRecords qid c d opts).map (fun ro => ro.display_order) =
      List.range' d opts.length := by
  induction opts generalizing c d with
  | nil => rfl
  | cons t rest ih => simp [mkOptionRecords, List.range'_succ, ih]

lemma mkOptionRecords_value (qid : String) (c d : Nat) (opts : List String) :
    ∀ ro ∈ mkOptionRecords qid c d opts, ro.option_value = toString ro.display_order := by
  induction opts generalizing c d with
  | nil => intro ro h; simp [mkOptionRecords] at h
  | cons t rest ih =>
    intro ro h
    rcases List.mem_cons.mp h with rfl | h
    · rfl
    · exact ih (c + 1) (d + 1) ro h

lemma mkOptionRecords_text (qid : String) (c d : Nat) (opts : List String) :
    (mkOptionRecords qid c d opts).map (fun ro => ro.option_text) = opts := by
  induction opts generalizing c d with
  | nil => rfl
  | cons t rest ih => simp [mkOptionRecords, ih]

lemma mkOptionRecords_qid (qid : String) (c d : Nat) (opts : List String) :
    ∀ ro ∈ mkOptionRecords qid c d opts, ro.question_id = qid := by
  induction opts generalizing c d with
  | nil => intro ro h; simp [mkOptionRecords] at h
  | cons t rest ih =>
    intro ro h
    rcases List.mem_cons.mp h with rfl | h
    · rfl
    · exact ih (c + 1) (d + 1) ro h

/-! Inversion principles for the row loader. -/

lemma loadRow_some (c : Nat) (qid qtext ropts : String) (fd : Option String) :
    loadRow c ⟨some qid, some qtext, some ropts, fd⟩ =
      Except.ok (⟨qid, qtext, classify_question_type qtext ropts, infer_topic qtext,
          dateOf fd, dateOf fd, 0, true, 1⟩,
        mkOptionRecords qid c 1 (parse_response_options ropts),
        c + (parse_response_options ropts).length) := rfl

lemma loadRow_error_of_not_wf {c : Nat} {row : RawRow} (h : wellFormed row = false) :
    loadRow c row = Except.error "missing required field" := by
  rcases row with ⟨oid, otext, oopts, fd⟩
  rcases oid with _ | qid <;> rcases otext with _ | qtext <;> rcases oopts with _ | ropts <;>
    simp_all [wellFormed, loadRow]

lemma loadRow_ok_elim {c : Nat} {row : RawRow} {q : Question} {ros : List ResponseOption}
    {c2 : Nat} (h : loadRow c row = Except.ok (q, ros, c2)) :
    ∃ qid qtext ropts, row.question_id = some qid ∧ row.question_text = some qtext ∧
      row.response_options = some ropts ∧
      q = ⟨qid, qtext, classify_question_type qtext ropts, infer_topic qtext,
            dateOf row.field_date, dateOf row.field_date, 0, true, 1⟩ ∧
      ros = mkOptionRecords qid c 1 (parse_response_options ropts) ∧
      c2 = c + (parse_response_options ropts).length := by
  rcases row with ⟨oid, otext, oopts, fd⟩
  rcases oid with _ | qid <;> rcases otext with _ | qtext <;> rcases oopts with _ | ropts <;>
    simp_all [loadRow]

/-! Inversion principles for the whole-input row loop. -/

lemma processRows_nil (c : Nat) : processRows c [] = Except.ok [] := rfl

lemma processRows_cons_ok {c : Nat} {row : RawRow} {rest : List RawRow}
    {out : List (Question × List ResponseOption)}
    (h : processRows c (row :: rest) = Except.ok out) :
    ∃ q ros c2 out', loadRow c row = Except.ok (q, ros, c2) ∧
      processRows c2 rest = Except.ok out' ∧ out = (q, ros) :: out' := by
  rcases hl : loadRow c row with e | ⟨q, ros, c2⟩
  · simp [processRows, hl] at h
  · rcases hr : processRows c2 rest with e | out'
    · simp [processRows, hl, hr] at h
    · simp only [processRows, hl, hr, Except.ok.injEq] at h
      exact ⟨q, ros, c2, out', rfl, hr, h.symm⟩

lemma processRows_ok_of_wf : ∀ (rows : List RawRow) (c : Nat),
    (∀ r ∈ rows, wellFormed r = true) →
    ∃ out, processRows c rows = Except.ok out := by
  intro rows
  induction rows with
  | nil => exact fun c _ => ⟨[], rfl⟩
  | cons row rest ih =>
    intro c hwf
    have hw : wellFormed row = true := hwf row (List.mem_cons_self row rest)
    rcases row with ⟨oid, otext, oopts, fd⟩
    rcases oid with _ | qid
    · simp [wellFormed] at hw
    rcases otext with _ | qtext
    · simp [wellFormed] at hw
    rcases oopts with _ | ropts
    · simp [wellFormed] at hw
    obtain ⟨out', hout'⟩ := ih (c + (parse_response_options ropts).length)
      (fun r hr => hwf r (List.mem_cons_of_mem _ hr))
    exact ⟨(⟨qid, qtext, classify_question_type qtext ropts, infer_topic qtext,
        dateOf fd, dateOf fd, 0, true, 1⟩,
        mkOptionRecords qid c 1 (parse_response_options ropts)) :: out',
      by simp only [processRows, loadRow_some, hout']⟩

lemma processRows_length : ∀ (rows : List RawRow) (c : Nat)
    (out : List (Question × List ResponseOption)),
    processRows c rows = Except.ok out → out.length = rows.length := by
  intro rows
  induction rows with
  | nil =>
    intro c out h
    simp only [processRows, Except.ok.injEq] at h
    simp [← h]
  | cons row rest ih =>
    intro c out h
    obtain ⟨q, ros, c2, out', hl, hr, rfl⟩ := processRows_cons_ok h
    simp [ih c2 out' hr]

lemma processRows_kList : ∀ (rows : List RawRow) (c : Nat)
    (out : List (Question × List ResponseOption)),
    processRows c rows = Except.ok out →
    out.map (fun p => p.2.length) = rows.map kOf := by
  intro rows
  induction rows with
  | nil =>
    intro c out h
    simp only [processRows, Except.ok.injEq] at h
    simp [← h]
  | cons row rest ih =>
    intro c out h
    obtain ⟨q, ros, c2, out', hl, hr, rfl⟩ := processRows_cons_ok h
    obtain ⟨qid, qtext, ropts, hqid, hqtext, hropts, hq, hros, hc2⟩ := loadRow_ok_elim hl
    simp [ih c2 out' hr, hros, mkOptionRecords_length, kOf, optionsOf, hropts]

lemma processRows_ids : ∀ (rows : List RawRow) (c : Nat)
    (out : List (Question × List ResponseOption)),
    processRows c rows = Except.ok out →
    ((out.map Prod.snd).flatten).map (fun ro => ro.option_id) =
      List.range' c (totalOptions rows) := by
  intro rows
  induction rows with
  | nil =>
    intro c out h
    simp only [processRows, Except.ok.injEq] at h
    simp [← h, totalOptions]
  | cons row rest ih =>
    intro c out h
    obtain ⟨q, ros, c2, out', hl, hr, rfl⟩ := processRows_cons_ok h
    obtain ⟨qid, qtext, ropts, hqid, hqtext, hropts, hq, hros, hc2⟩ := loadRow_ok_elim hl
    have hk : kOf row = (parse_response_options ropts).length := by
      simp [kOf, optionsOf, hropts]
    have htot : totalOptions (row :: rest) = kOf row + totalOptions rest := by
      simp [totalOptions]
    rw [List.map_cons, List.flatten_cons, List.map_append, ih c2 out' hr, hros,
      mkOptionRecords_ids, htot, hk, hc2, Nat.add_comm ((parse_response_options ropts).length)
        (totalOptions rest), List.range'_append_1]

lemma processRows_display : ∀ (rows : List RawRow) (c : Nat)
    (out : List (Question × List ResponseOption)),
    processRows c rows = Except.ok out →
    ∀ p ∈ out, p.2.map (fun ro => ro.display_order) = List.range' 1 p.2.length := by
  intro rows
  induction rows with
  | nil =>
    intro c out h
    simp only [processRows, Except.ok.injEq] at h
    simp [← h]
  | cons row rest ih =>
    intro c out h p hp
    obtain ⟨q, ros, c2, out', hl, hr, rfl⟩ := processRows_cons_ok h
    rcases List.mem_cons.mp hp with rfl | hp
    · obtain ⟨qid, qtext, ropts, hqid, hqtext, hropts, hq, hros, hc2⟩ := loadRow_ok_elim hl
      simp only [hros, mkOptionRecords_display, mkOptionRecords_length]
    · exact ih c2 out' hr p hp

lemma processRows_value : ∀ (rows : List RawRow) (c : Nat)
    (out : List (Question × List ResponseOption)),
    processRows c rows = Except.ok out →
    ∀ p ∈ out, ∀ ro ∈ p.2, ro.option_value = toString ro.display_order := by
  intro rows
  induction rows with
  | nil =>
    intro c out h
    simp only [processRows, Except.ok.injEq] at h
    simp [← h]
  | cons row rest ih =>
    intro c out h p hp
    obtain ⟨q, ros, c2, out', hl, hr, rfl⟩ := processRows_cons_ok h
    rcases List.mem_cons.mp hp with rfl | hp
    · obtain ⟨qid, qtext, ropts, hqid, hqtext, hropts, hq, hros, hc2⟩ := loadRow_ok_elim hl
      intro ro hro
      exact mkOptionRecords_value qid c 1 (parse_response_options ropts) ro (hros ▸ hro)
    · exact ih c2 out' hr p hp

lemma processRows_error_of_bad_row : ∀ (rows : List RawRow) (c : Nat),
    (∃ r ∈ rows, wellFormed r = false) →
    processRows c rows = Except.error "missing required field" := by
  intro rows
  induction rows with
  | nil => intro c h; simp at h
  | cons row rest ih =>
    intro c h
    by_cases hw : wellFormed row = true
    · obtain ⟨r, hr, hbad⟩ := h
      rcases List.mem_cons.mp hr with rfl | hr2
      · rw [hw] at hbad; cases hbad
      rcases row with ⟨oid, otext, oopts, fd⟩
      rcases oid with _ | qid
      · simp [wellFormed] at hw
      rcases otext with _ | qtext
      · simp [wellFormed] at hw
      rcases oopts with _ | ropts
      · simp [wellFormed] at hw
      have := ih (c + (parse_response_options ropts).length) ⟨r, hr2, hbad⟩
      simp only [processRows, loadRow_some, this]
    · have hbad : wellFormed row = false := by
        cases hwf : wellFormed row
        · rfl
        · exact absurd hwf hw
      simp only [processRows, loadRow_error_of_not_wf hbad]

/-- Claim C2: for every question text whose lowercased form contains both
"rank" and "order", and every non-sentinel options string (not the open-ended
marker and not containing "[Numeric scale"), `classify_question_type` returns
the ranking code 6, regardless of any keywords belonging to rules later in
the decision order also appearing in the text. -/
theorem claim_c2 (question_text response_options : String)
    (hrank : strContains (toLowerStr question_text) "rank" = true)
    (horder : strContains (toLowerStr question_text) "order" = true)
    (hopen : response_options ≠ "[Open-ended response]")
    (hnum : strContains response_options "[Numeric scale" = false) :
    classify_question_type question_text response_options = 6 := by
  simp [classify_question_type, hopen, hnum, hrank, horder]

/-- Witness for C2: a text that also matches the message-test, multiple-select
and Likert rules still classifies as ranking. -/
theorem claim_c2_witness :
    classify_question_type
      "Rank in order of priority: select all, message a, message b" "A | B" = 6 :=
  claim_c2 _ _ (by decide) (by decide) (by decide) (by decide)

/-- Claim C3: each of the two sentinel options strings forces its fixed type
code (4 for the open-ended marker, 5 for the numeric-scale marker) and an
empty parsed option sequence, whatever the question text says. -/
theorem claim_c3 (question_text : String) :
    classify_question_type question_text "[Open-ended response]" = 4 ∧
    parse_response_options "[Open-ended response]" = [] ∧
    classify_question_type question_text "[Numeric scale 0-100]" = 5 ∧
    parse_response_options "[Numeric scale 0-100]" = [] := by
  refine ⟨by simp [classify_question_type], by decide, ?_, by decide⟩
  simp [classify_question_type,
    show ("[Numeric scale 0-100]" : String) ≠ "[Open-ended response]" by decide,
    show strContains "[Numeric scale 0-100]" "[Numeric scale" = true by decide]

/-- Witness for C3 at a concrete question text. -/
theorem claim_c3_witness :
    classify_question_type "Tell us more" "[Open-ended response]" = 4 :=
  (claim_c3 "Tell us more").1

/-- Claim C7: `infer_topic` is a total first-match-wins cascade — Demographics
(1) on any demographics keyword, else Vote Choice (7) on any vote keyword,
else Housing (4) on any housing keyword, else the Policy default (3) — and on
"Do you support or oppose the new zoning law?" the topic is Housing while the
type is likert_scale. -/
theorem claim_c7 :
    (∀ question_text : String,
      (demographics_keywords.any (fun w => strContains (toLowerStr question_text) w) = true →
        infer_topic question_text = 1) ∧
      (demographics_keywords.any (fun w => strContains (toLowerStr question_text) w) = false →
        vote_keywords.any (fun w => strContains (toLowerStr question_text) w) = true →
        infer_topic question_text = 7) ∧
      (demographics_keywords.any (fun w => strContains (toLowerStr question_text) w) = false →
        vote_keywords.any (fun w => strContains (toLowerStr question_text) w) = false →
        housing_keywords.any (fun w => strContains (toLowerStr question_text) w) = true →
        infer_topic question_text = 4) ∧
      (demographics_keywords.any (fun w => strContains (toLowerStr question_text) w) = false →
        vote_keywords.any (fun w => strContains (toLowerStr question_text) w) = false →
        housing_keywords.any (fun w => strContains (toLowerStr question_text) w) = false →
        infer_topic question_text = 3)) ∧
    infer_topic "Do you support or oppose the new zoning law?" = 4 ∧
    classify_question_type "Do you support or oppose the new zoning law?" "Support | Oppose" = 1 := by
  refine ⟨fun text => ⟨fun h1 => by simp [infer_topic, h1],
    fun h1 h2 => by simp [infer_topic, h1, h2],
    fun h1 h2 h3 => by simp [infer_topic, h1, h2, h3],
    fun h1 h2 h3 => by simp [infer_topic, h1, h2, h3]⟩, by decide, by decide⟩

/-- Witness for C7: a vote-keyword text classifies as Vote Choice. -/
theorem claim_c7_witness : infer_topic "How do you plan to vote?" = 7 :=
  ((claim_c7.1 "How do you plan to vote?").2.1) (by decide) (by decide)

/-- Claim C10 (implicit): an options string containing "[Numeric scale" but
different from the exact sentinel "[Numeric scale 0-100]" is typed
numeric_scale (5) yet parses to a non-empty option list, so its question is
persisted with one or more response-option records. -/
theorem claim_c10 (question_text options_str : String)
    (hsub : strContains options_str "[Numeric scale" = true)
    (hne : options_str ≠ "[Numeric scale 0-100]") :
    classify_question_type question_text options_str = 5 ∧
    parse_response_options options_str ≠ [] ∧
    ∀ qid counter, ∃ q ros c2,
      loadRow counter ⟨some qid, some question_text, some options_str, none⟩ =
        Except.ok (q, ros, c2) ∧ q.question_type_id = 5 ∧ ros ≠ [] := by
  have hopen : options_str ≠ "[Open-ended response]" := by
    rintro rfl
    rw [show strContains "[Open-ended response]" "[Numeric scale" = false by decide] at hsub
    cases hsub
  have hcls : classify_question_type question_text options_str = 5 := by
    simp [classify_question_type, hopen, hsub]
  have hparse : parse_response_options options_str ≠ [] := by
    rw [parse_response_options_of_ne hopen hne]
    rcases hs : splitOnChar '|' options_str.data with _ | ⟨s, ss⟩
    · exact absurd hs (splitOnChar_ne_nil _ _)
    · simp
  refine ⟨hcls, hparse, fun qid counter => ?_⟩
  refine ⟨_, _, _, loadRow_some counter qid question_text options_str none, hcls, ?_⟩
  intro hnil
  apply hparse
  have hlen := mkOptionRecords_length qid counter 1 (parse_response_options options_str)
  rw [hnil] at hlen
  exact List.length_eq_zero.mp hlen.symm

/-- Witness for C10 at the options string "[Numeric scale 0-10]". -/
theorem claim_c10_witness :
    classify_question_type "How do you rate this?" "[Numeric scale 0-10]" = 5 ∧
    parse_response_options "[Numeric scale 0-10]" ≠ [] :=
  ⟨(claim_c10 "How do you rate this?" "[Numeric scale 0-10]" (by decide) (by decide)).1,
   (claim_c10 "How do you rate this?" "[Numeric scale 0-10]" (by decide) (by decide)).2.1⟩

/-- Claim C5: a row whose field date is absent or fails the strict YYYY-MM-DD
parse still loads, with `created_date` and `last_used_date` both null and
every other field of the question record exactly as for any other row. -/
theorem claim_c5 (counter : Nat) (row : RawRow) (qid qtext ropts : String)
    (hqid : row.question_id = some qid) (hqtext : row.question_text = some qtext)
    (hropts : row.response_options = some ropts)
    (hdate : parseYMD (row.field_date.getD "") = none) :
    loadRow counter row = Except.ok
      (⟨qid, qtext, classify_question_type qtext ropts, infer_topic qtext,
        none, none, 0, true, 1⟩,
       mkOptionRecords qid counter 1 (parse_response_options ropts),
       counter + (parse_response_options ropts).length) := by
  have hd : dateOf row.field_date = none := by
    unfold dateOf
    by_cases h : row.field_date.getD "" = ""
    · simp [h]
    · simp [h, hdate]
  rcases row with ⟨oid, otext, oopts, fd⟩
  cases hqid
  cases hqtext
  cases hropts
  rw [loadRow_some, hd]

/-- Witness for C5: a syntactically well-formed but invalid date (February 30)
loads with null dates. -/
theorem claim_c5_witness :
    loadRow 1000 ⟨some "Q1", some "T", some "A | B", some "2021-02-30"⟩ = Except.ok
      (⟨"Q1", "T", classify_question_type "T" "A | B", infer_topic "T",
        none, none, 0, true, 1⟩,
       mkOptionRecords "Q1" 1000 1 (parse_response_options "A | B"),
       1000 + (parse_response_options "A | B").length) :=
  claim_c5 1000 ⟨some "Q1", some "T", some "A | B", some "2021-02-30"⟩ "Q1" "T" "A | B"
    rfl rfl rfl (by decide)

/-- Claim C6: when some row is missing a required field, the whole load aborts
with an error and returns no question or response-option records at all, also
none for the rows preceding the failing one (the single final commit of
`main` is never reached). -/
theorem claim_c6 (rows : List RawRow) (hbad : ∃ r ∈ rows, wellFormed r = false) :
    load rows = Except.error "missing required field" := by
  unfold load
  rw [processRows_error_of_bad_row rows 1000 hbad]

/-- Witness for C6: a well-formed first row followed by a row without a
question_id aborts the load. -/
theorem claim_c6_witness :
    load [⟨some "Q1", some "T", some "A | B", none⟩, ⟨none, some "U", some "C", none⟩] =
      Except.error "missing required field" :=
  claim_c6 _ ⟨⟨none, some "U", some "C", none⟩, by decide, by decide⟩

/-- Claim C8: every persisted response-option record has `option_value` equal
to the decimal rendering of its 1-based display position, and the five-option
Likert example yields display orders 1..5 with option values "1".."5". -/
theorem claim_c8 :
    (∀ (rows : List RawRow) (out : List (Question × List ResponseOption)),
      processRows 1000 rows = Except.ok out →
      ∀ p ∈ out, ∀ ro ∈ p.2, ro.option_value = toString ro.display_order) ∧
    (mkOptionRecords "Q1" 1000 1 (parse_response_options
        "Strongly agree | Agree | Neutral | Disagree | Strongly disagree")).map
      (fun ro => (ro.display_order, ro.option_value)) =
      [(1, "1"), (2, "2"), (3, "3"), (4, "4"), (5, "5")] :=
  ⟨fun rows out h => processRows_value rows 1000 out h, by decide⟩

/-- Witness for C8 on a concrete two-option load. -/
theorem claim_c8_witness :
    (⟨1000, "Q1", "A", "1", 1⟩ : ResponseOption).option_value =
      toString (⟨1000, "Q1", "A", "1", 1⟩ : ResponseOption).display_order :=
  claim_c8.1 [⟨some "Q1", some "T", some "A | B", none⟩]
    [(⟨"Q1", "T", 2, 3, none, none, 0, true, 1⟩,
      [⟨1000, "Q1", "A", "1", 1⟩, ⟨1001, "Q1", "B", "2", 2⟩])] rfl
    (⟨"Q1", "T", 2, 3, none, none, 0, true, 1⟩,
      [⟨1000, "Q1", "A", "1", 1⟩, ⟨1001, "Q1", "B", "2", 2⟩]) (by decide)
    ⟨1000, "Q1", "A", "1", 1⟩ (by decide)

/-- Claim C9 (implicit): over a successful load the option_id values of the
flattened option records, in row order and within a row in display order, are
exactly the contiguous range starting at 1000 of length `sum(k_i)` — the
counter advances by one per option record and is untouched by question
records and by sentinel rows with no options. -/
theorem claim_c9 (rows : List RawRow) (out : List (Question × List ResponseOption))
    (h : processRows 1000 rows = Except.ok out) :
    ((out.map Prod.snd).flatten).map (fun ro => ro.option_id) =
      List.range' 1000 (totalOptions rows) :=
  processRows_ids rows 1000 out h

/-- Witness for C9: a load whose middle row is a sentinel (no options) keeps
the counter contiguous across the remaining rows. -/
theorem claim_c9_witness :
    ((([(⟨"Q1", "T", 2, 3, none, none, 0, true, 1⟩,
        [⟨1000, "Q1", "A", "1", 1⟩, ⟨1001, "Q1", "B", "2", 2⟩]),
       (⟨"Q2", "U", 4, 3, none, none, 0, true, 1⟩, ([] : List ResponseOption)),
       (⟨"Q3", "V", 2, 3, none, none, 0, true, 1⟩,
        [⟨1002, "Q3", "C", "1", 1⟩, ⟨1003, "Q3", "D", "2", 2⟩])] :
      List (Question × List ResponseOption)).map Prod.snd).flatten).map
      (fun ro => ro.option_id) =
      List.range' 1000 (totalOptions
        [⟨some "Q1", some "T", some "A | B", none⟩,
         ⟨some "Q2", some "U", some "[Open-ended response]", none⟩,
         ⟨some "Q3", some "V", some "C | D", none⟩]) :=
  claim_c9
    [⟨some "Q1", some "T", some "A | B", none⟩,
     ⟨some "Q2", some "U", some "[Open-ended response]", none⟩,
     ⟨some "Q3", some "V", some "C | D", none⟩]
    [(⟨"Q1", "T", 2, 3, none, none, 0, true, 1⟩,
      [⟨1000, "Q1", "A", "1", 1⟩, ⟨1001, "Q1", "B", "2", 2⟩]),
     (⟨"Q2", "U", 4, 3, none, none, 0, true, 1⟩, ([] : List ResponseOption)),
     (⟨"Q3", "V", 2, 3, none, none, 0, true, 1⟩,
      [⟨1002, "Q3", "C", "1", 1⟩, ⟨1003, "Q3", "D", "2", 2⟩])] rfl

/-- Claim C1: loading N well-formed rows succeeds and produces exactly N
question records and `sum(k_i)` option records; the option_id values are
pairwise distinct and all at least the floor 1000; and each question's option
records carry display_order values exactly 1..k_i with no gaps or
duplicates. -/
theorem claim_c1 (rows : List RawRow) (hwf : ∀ r ∈ rows, wellFormed r = true) :
    ∃ out, processRows 1000 rows = Except.ok out ∧
      load rows = Except.ok (out.map Prod.fst, (out.map Prod.snd).flatten) ∧
      out.length = rows.length ∧
      ((out.map Prod.snd).flatten).length = totalOptions rows ∧
      (((out.map Prod.snd).flatten).map (fun ro => ro.option_id)).Nodup ∧
      (∀ ro ∈ (out.map Prod.snd).flatten, 1000 ≤ ro.option_id) ∧
      out.map (fun p => p.2.length) = rows.map kOf ∧
      ∀ p ∈ out, p.2.map (fun ro => ro.display_order) = List.range' 1 p.2.length := by
  obtain ⟨out, hout⟩ := processRows_ok_of_wf rows 1000 hwf
  have hids := processRows_ids rows 1000 out hout
  refine ⟨out, hout, by unfold load; rw [hout], processRows_length rows 1000 out hout,
    ?_, ?_, ?_, processRows_kList rows 1000 out hout,
    processRows_display rows 1000 out hout⟩
  · rw [show ((out.map Prod.snd).flatten).length =
        (((out.map Prod.snd).flatten).map (fun ro => ro.option_id)).length from
        (List.length_map _ _).symm, hids, List.length_range']
  · rw [hids]
    exact List.nodup_range' 1000 (totalOptions rows)
  · intro ro hro
    have hmem : ro.option_id ∈ ((out.map Prod.snd).flatten).map (fun ro => ro.option_id) :=
      List.mem_map_of_mem _ hro
    rw [hids] at hmem
    exact (List.mem_range'_1.mp hmem).1

/-- Witness for C1 on a concrete two-row input, one row of which is a
sentinel with no options. -/
theorem claim_c1_witness : ∃ out,
    processRows 1000 [⟨some "Q1", some "T", some "A | B", none⟩,
      ⟨some "Q2", some "U", some "[Open-ended response]", none⟩] = Except.ok out ∧
    out.length = 2 := by
  obtain ⟨out, h1, _, h2, _⟩ := claim_c1 [⟨some "Q1", some "T", some "A | B", none⟩,
    ⟨some "Q2", some "U", some "[Open-ended response]", none⟩] (by decide)
  exact ⟨out, h1, by simpa using h2⟩

/-- Character-level form of joining with the separator " | ". -/
def joinChars : List (List Char) → List Char
  | [] => []
  | [s] => s
  | s :: s2 :: rest => s ++ (' ' :: '|' :: ' ' :: joinChars (s2 :: rest))

lemma joinOptions_data : ∀ ss : List String,
    (joinOptions ss).data = joinChars (ss.map String.data)
  | [] => rfl
  | [s] => rfl
  | s :: s2 :: rest => by
    simp only [joinOptions, joinChars, List.map_cons, String.data_append,
      joinOptions_data (s2 :: rest)]
    simp [joinChars, List.append_assoc]

lemma splitJoin_trim : ∀ ll : List (List Char), ll ≠ [] → (∀ s ∈ ll, '|' ∉ s) →
    (∀ s ∈ ll, trimChars s = s) →
    (splitOnChar '|' (joinChars ll)).map trimChars = ll
  | [], h, _, _ => absurd rfl h
  | [s], _, hp, ht => by
    simp only [joinChars]
    rw [splitOnChar_of_not_mem (hp s (List.mem_singleton.mpr rfl))]
    simp [ht s (List.mem_singleton.mpr rfl)]
  | s :: s2 :: rest, _, hp, ht => by
    have hps : '|' ∉ s := hp s (List.mem_cons_self s _)
    have hIH := splitJoin_trim (s2 :: rest) (List.cons_ne_nil s2 rest)
      (fun x hx => hp x (List.mem_cons_of_mem s hx))
      (fun x hx => ht x (List.mem_cons_of_mem s hx))
    rcases hJ : splitOnChar '|' (joinChars (s2 :: rest)) with _ | ⟨h0, t0⟩
    · exact absurd hJ (splitOnChar_ne_nil _ _)
    have hmid : splitOnChar '|' (' ' :: '|' :: ' ' :: joinChars (s2 :: rest)) =
        [' '] :: (' ' :: h0) :: t0 := by
      simp [splitOnChar, hJ]
    have hfull := splitOnChar_append hps hmid
    rw [hJ] at hIH
    show (splitOnChar '|' (s ++ (' ' :: '|' :: ' ' :: joinChars (s2 :: rest)))).map trimChars = _
    rw [hfull, List.map_cons, List.map_cons,
      trimChars_append_space (by decide) s, ht s (List.mem_cons_self s _),
      trimChars_cons_space (by decide) h0]
    simp only [List.map_cons] at hIH
    rw [hIH]

/-- Claim C4: for every non-sentinel options string, the parse yields exactly
one element per pipe-delimited segment (empty segments kept, nothing
deduplicated or filtered), each element being the whitespace-trimmed segment
in original order, and re-joining the parsed elements with " | " recovers the
original string modulo whitespace around each segment (both sides have the
same trimmed segment lists). -/
theorem claim_c4 (raw : String) (h1 : raw ≠ "[Open-ended response]")
    (h2 : raw ≠ "[Numeric scale 0-100]") :
    (parse_response_options raw).length = raw.data.count '|' + 1 ∧
    parse_response_options raw =
      (splitOnChar '|' raw.data).map (fun seg => String.mk (trimChars seg)) ∧
    (splitOnChar '|' (joinOptions (parse_response_options raw)).data).map trimChars =
      (splitOnChar '|' raw.data).map trimChars := by
  have hp := parse_response_options_of_ne h1 h2
  refine ⟨by rw [hp, List.length_map, length_splitOnChar], hp, ?_⟩
  rw [hp, joinOptions_data, List.map_map]
  have hcomp : (String.data ∘ fun seg => String.mk (trimChars seg)) = trimChars := rfl
  rw [hcomp]
  apply splitJoin_trim
  · intro hnil
    exact splitOnChar_ne_nil '|' raw.data (List.map_eq_nil_iff.mp hnil)
  · intro x hx
    obtain ⟨seg, hseg, rfl⟩ := List.mem_map.mp hx
    intro hmem
    exact not_mem_of_mem_splitOnChar '|' raw.data seg hseg (trimChars_subset seg hmem)
  · intro x hx
    obtain ⟨seg, hseg, rfl⟩ := List.mem_map.mp hx
    exact trimChars_idem seg

/-- Witness for C4 on the options string " Red |  Green Blue | " (whitespace
around segments, an empty trailing segment). -/
theorem claim_c4_witness :
    (parse_response_options " Red |  Green Blue | ").length =
      " Red |  Green Blue | ".data.count '|' + 1 ∧
    parse_response_options " Red |  Green Blue | " =
      (splitOnChar '|' " Red |  Green Blue | ".data).map
        (fun seg => String.mk (trimChars seg)) ∧
    (splitOnChar '|'
        (joinOptions (parse_response_options " Red |  Green Blue | ")).data).map trimChars =
      (splitOnChar '|' " Red |  Green Blue | ".data).map trimChars :=
  claim_c4 " Red |  Green Blue | " (by decide) (by decide)

end QuestionBank
